import Mathlib

/-!
Verification of the simple-supabase-glance dashboard against its
specification.

Shallow embedding of the algorithmic parts of the repository:
* the client-side site-stock-summary fallback scan (`src/pages/Inventory.tsx`,
  the `stockMap` loop inside the `site-stock-summary` query function);
* the query function's choice between the server procedure and the fallback;
* the case-insensitive substring page filters (`filteredItems` in
  `Inventory.tsx`, `filteredSites` in the Sites page);
* the routing and auth gating in `ProtectedApp` (`src/App.tsx`);
* the sign-in handlers (`src/pages/Auth.tsx`);
* the inventory-item mutations' success/error handling (`Inventory.tsx`);
* the Activities card view's `formatDateTime` (`src/pages/Activities.tsx`).

JavaScript strings are modelled as Lean `String`, nullable fields as `Option`,
rejected promises as `Except`, and the insertion-ordered `Map` as a list of
rows extended at the tail exactly when the key is not yet present.
-/

/-! ## Data model -/

/-- The joined `inventory_items` record selected with each transaction
(`id, name, category, unit`); the database columns other than `id` are
nullable. -/
structure InventoryItemJoin where
  id : String
  name : Option String
  category : Option String
  unit : Option String
deriving Repr, DecidableEq

/-- One row of `inventory_transactions` as selected by the fallback query:
`item_id, new_stock, created_at` and the joined `inventory_items` record
(nullable, as the join can miss). -/
structure Transaction where
  item_id : String
  new_stock : Int
  created_at : String
  inventory_items : Option InventoryItemJoin
deriving Repr, DecidableEq

/-- One entry of the derived stock summary, exactly the object literal stored
into `stockMap` in `Inventory.tsx`. -/
structure StockSummaryRow where
  item_id : String
  current_stock : Int
  item_name : Option String
  item_category : Option String
  item_unit : Option String
  last_updated : String
deriving Repr, DecidableEq

/-- The summary entry built from one transaction: the object literal passed to
`stockMap.set` (optional chaining `transaction.inventory_items?.name` becomes
`Option.bind`). -/
def summaryOf (t : Transaction) : StockSummaryRow :=
  { item_id := t.item_id
    current_stock := t.new_stock
    item_name := t.inventory_items.bind (fun i => i.name)
    item_category := t.inventory_items.bind (fun i => i.category)
    item_unit := t.inventory_items.bind (fun i => i.unit)
    last_updated := t.created_at }

/-- The `transactions?.forEach` loop over the insertion-ordered `Map`:
the accumulator is the list of entries in insertion order; `stockMap.has`
is a key scan, and `stockMap.set` on a fresh key appends at the tail. -/
def stockScan : List Transaction → List StockSummaryRow → List StockSummaryRow
  | [], acc => acc
  | t :: ts, acc =>
      if acc.any (fun r => r.item_id = t.item_id) then
        stockScan ts acc
      else
        stockScan ts (acc ++ [summaryOf t])

/-- Result of `Array.from(stockMap.values())` after the scan starting from the empty
map: the client-side stock-summary derivation of `Inventory.tsx`. -/
def stockSummaryFallback (txs : List Transaction) : List StockSummaryRow :=
  stockScan txs []

/-! ## First-seen key order, used to characterise the scan -/

/-- The keys of a list of summary rows, in order. -/
def keysOf (rows : List StockSummaryRow) : List String :=
  rows.map (fun r => r.item_id)

/-- First occurrence of each string in `l` that is not in `seen`, in order of
first appearance. -/
def firstSeenFrom (seen : List String) : List String → List String
  | [] => []
  | x :: xs =>
      if x ∈ seen then firstSeenFrom seen xs
      else x :: firstSeenFrom (x :: seen) xs

/-- Index of the first occurrence of a string in a list (length if absent). -/
def idxOfStr (a : String) : List String → Nat
  | [] => 0
  | x :: xs => if x = a then 0 else idxOfStr a xs + 1

/-! ## The site-stock-summary query function -/

/-- An error value rejected by the remote store. -/
structure StoreError where
  code : String
deriving Repr, DecidableEq

/-- Modelled from the spec: the database procedure `get_site_stock_summary`
is not part of the repository sources (only its invocation via `rpc` is);
per the spec it performs "the same computation" as the client-side scan —
one summary row per item observed, equal to the `new_stock` of that item's
most recent (first in newest-first order) transaction, entries in
first-seen order. -/
def get_site_stock_summary (txs : List Transaction) : List StockSummaryRow :=
  (firstSeenFrom [] (txs.map (fun t => t.item_id))).filterMap
    (fun d => (txs.find? (fun t => t.item_id = d)).map summaryOf)

/-- The `site-stock-summary` query function of `Inventory.tsx`: an empty
`selectedSite` short-circuits to `[]`; otherwise the `rpc` result is used
as-is on success (`data || []` turns a null payload into `[]`), and only on
an `rpc` error is the transaction log fetched and scanned client-side
(a rejected fetch rethrows; a null transaction list scans to `[]`). -/
def siteStockSummaryQueryFn
    (selectedSite : String)
    (rpcResult : Except StoreError (Option (List StockSummaryRow)))
    (txResult : Except StoreError (Option (List Transaction))) :
    Except StoreError (List StockSummaryRow) :=
  if selectedSite = "" then .ok []
  else
    match rpcResult with
    | .ok data => .ok (data.getD [])
    | .error _ =>
        match txResult with
        | .error e => .error e
        | .ok transactions => .ok (stockSummaryFallback (transactions.getD []))

/-! ## Case-insensitive substring filtering -/

/-- Whether `t` occurs at the head of `s` (character-wise). -/
def leadsWith : List Char → List Char → Bool
  | [], _ => true
  | _ :: _, [] => false
  | a :: as, b :: bs => a = b && leadsWith as bs

/-- Whether `t` occurs contiguously anywhere in `s`: the JavaScript
`String.prototype.includes`. -/
def occursIn (t : List Char) : List Char → Bool
  | [] => t.isEmpty
  | c :: cs => leadsWith t (c :: cs) || occursIn t cs

/-- Model of `s.toLowerCase()`, character-wise. -/
def lowerChars (s : String) : List Char :=
  s.toList.map Char.toLower

/-- Model of `s.includes(t)` on lower-cased character lists. -/
def jsIncludes (s t : List Char) : Bool :=
  occursIn t s

/-- Model of `field?.toLowerCase().includes(term.toLowerCase())` with JavaScript
optional chaining: a null field never matches. -/
def matchesOpt (field : Option String) (term : String) : Bool :=
  match field with
  | none => false
  | some s => jsIncludes (lowerChars s) (lowerChars term)

/-- Case-insensitive substring match, as the spec states the filtering
property: the term occurs in the field when both are lower-cased. -/
def CiMatches (s term : String) : Prop :=
  occursIn (lowerChars term) (lowerChars s) = true

/-- A row of `inventory_items` as rendered by the Inventory page
(searched fields `name` and `category` are nullable). -/
structure InventoryItem where
  id : String
  name : Option String
  category : Option String
  unit : Option String
  status : Option String
deriving Repr, DecidableEq

/-- A row of `sites` as rendered by the Sites page (searched fields
`name` and `location` are nullable). -/
structure Site where
  id : String
  name : Option String
  location : Option String
  status : Option String
deriving Repr, DecidableEq

/-- The `filteredItems` computation in `Inventory.tsx`: keep rows whose name or category
contains the search term case-insensitively. -/
def filteredItems (items : List InventoryItem) (searchTerm : String) :
    List InventoryItem :=
  items.filter (fun item =>
    matchesOpt item.name searchTerm || matchesOpt item.category searchTerm)

/-- The `filteredSites` computation in the Sites page: keep rows whose name or location
contains the search term case-insensitively. -/
def filteredSites (sites : List Site) (searchTerm : String) : List Site :=
  sites.filter (fun site =>
    matchesOpt site.name searchTerm || matchesOpt site.location searchTerm)

/-! ## Routing and the auth gate -/

/-- The routed pages of `src/App.tsx`, plus the catch-all. -/
inductive Page where
  | dashboard
  | users
  | sites
  | activities
  | materialRequests
  | bookings
  | messageLogs
  | sessions
  | employeeOTPs
  | notFound
deriving Repr, DecidableEq

/-- What `ProtectedApp` renders. -/
inductive View where
  | loadingView
  | authView
  | page (p : Page)
deriving Repr, DecidableEq

/-- The `<Routes>` table of `src/App.tsx`: the nine explicit paths, then the
`*` catch-all to `NotFound`. -/
def routeFor (path : String) : Page :=
  if path = "/" then .dashboard
  else if path = "/users" then .users
  else if path = "/sites" then .sites
  else if path = "/activities" then .activities
  else if path = "/material-requests" then .materialRequests
  else if path = "/bookings" then .bookings
  else if path = "/message-logs" then .messageLogs
  else if path = "/sessions" then .sessions
  else if path = "/employee-otps" then .employeeOTPs
  else .notFound

/-- The paths routed to a dedicated page. -/
def routedPaths : List String :=
  ["/", "/users", "/sites", "/activities", "/material-requests",
   "/bookings", "/message-logs", "/sessions", "/employee-otps"]

/-- The `ProtectedApp` component: while auth is loading it renders the loading screen; with
no user it renders only the `Auth` view; with a user it renders the routed
page for the current path. -/
def ProtectedApp (loading : Bool) (user : Option String) (path : String) :
    View :=
  if loading then .loadingView
  else
    match user with
    | none => .authView
    | some _ => .page (routeFor path)

/-! ## The sign-in handlers -/

/-- A toast notification (`variant: 'destructive'` marks errors). -/
structure Toast where
  title : String
  description : String
  destructive : Bool
deriving Repr, DecidableEq

/-- An error returned by the auth service; `message` is nullable. -/
structure AuthError where
  message : Option String
deriving Repr, DecidableEq

/-- JavaScript `x || d` on a nullable string: null and the empty string are
falsy. -/
def jsOrElse (s : Option String) (d : String) : String :=
  match s with
  | none => d
  | some m => if m = "" then d else m

/-- The two steps of the sign-in flow in `Auth.tsx`. -/
inductive AuthStep where
  | email
  | otp
deriving Repr, DecidableEq

/-- Observable outcome of one run of `handleEmailSubmit`. -/
structure EmailSubmitResult where
  toasts : List Toast
  networkCall : Bool
  step : AuthStep
deriving Repr, DecidableEq

/-- The `handleEmailSubmit` handler in `Auth.tsx`: an empty email (falsy) raises an error
toast and returns before `signInWithOtp`; otherwise the call is made and its
result (`signInResult`) decides between an error toast (staying on the email
step) and the OTP-sent toast moving to the OTP step. -/
def handleEmailSubmit (email : String) (signInResult : Option AuthError) :
    EmailSubmitResult :=
  if email = "" then
    { toasts := [⟨"Error", "Please enter your email address", true⟩]
      networkCall := false
      step := .email }
  else
    match signInResult with
    | some err =>
        { toasts := [⟨"Error", jsOrElse err.message "Failed to send OTP", true⟩]
          networkCall := true
          step := .email }
    | none =>
        { toasts := [⟨"OTP Sent", "Check your email for the verification code", false⟩]
          networkCall := true
          step := .otp }

/-- An authenticated session established by `verifyOtp`. -/
structure Session where
  userId : String
deriving Repr, DecidableEq

/-- Observable outcome of one run of `handleOtpSubmit`: toasts, whether
`navigate('/')` ran, and the auth session afterwards. -/
structure OtpSubmitResult where
  toasts : List Toast
  navigatedHome : Bool
  session : Option Session
deriving Repr, DecidableEq

/-- The `handleOtpSubmit` handler in `Auth.tsx`: an empty code (falsy) raises an error
toast before `verifyOtp`; a `verifyOtp` error raises an error toast and
neither navigates nor changes the session; success toasts, navigates to `/`
and leaves the session established by `verifyOtp`. -/
def handleOtpSubmit (otp : String)
    (verifyResult : Except AuthError Session)
    (prevSession : Option Session) : OtpSubmitResult :=
  if otp = "" then
    { toasts := [⟨"Error", "Please enter the verification code", true⟩]
      navigatedHome := false
      session := prevSession }
  else
    match verifyResult with
    | .error err =>
        { toasts := [⟨"Error", jsOrElse err.message "Invalid verification code", true⟩]
          navigatedHome := false
          session := prevSession }
    | .ok s =>
        { toasts := [⟨"Success", "Successfully logged in!", false⟩]
          navigatedHome := true
          session := some s }

/-! ## Mutation success/error handling -/

/-- The `onSuccess`/`onError` configuration of one `useMutation` call in
`Inventory.tsx`: which query keys `onSuccess` invalidates and the two
toasts. -/
structure MutationDef where
  successInvalidates : List String
  successToast : Toast
  errorToast : Toast
deriving Repr, DecidableEq

/-- Observable outcome of dispatching one mutation once. -/
structure MutationOutcome where
  invalidatedKeys : List String
  toasts : List Toast
  attempts : Nat
  crashed : Bool
deriving Repr, DecidableEq

/-- Dispatch of a mutation under the default query client of `App.tsx`
(`new QueryClient()`): the mutation function runs once — mutations are not
retried by default — and its settled result is routed to `onSuccess`
(invalidate then toast) or `onError` (toast only); the error is consumed by
the callback, so the application does not crash. -/
def runMutation (m : MutationDef) (result : Except StoreError Unit) :
    MutationOutcome :=
  match result with
  | .ok _ =>
      { invalidatedKeys := m.successInvalidates
        toasts := [m.successToast]
        attempts := 1
        crashed := false }
  | .error _ =>
      { invalidatedKeys := []
        toasts := [m.errorToast]
        attempts := 1
        crashed := false }

/-- Configuration of `createItemMutation` in `Inventory.tsx`. -/
def createItemMutation : MutationDef :=
  { successInvalidates := ["inventory-items"]
    successToast := ⟨"Success", "Inventory item created successfully", false⟩
    errorToast := ⟨"Error", "Failed to create inventory item", true⟩ }

/-- Configuration of `updateItemMutation` in `Inventory.tsx`. -/
def updateItemMutation : MutationDef :=
  { successInvalidates := ["inventory-items"]
    successToast := ⟨"Success", "Inventory item updated successfully", false⟩
    errorToast := ⟨"Error", "Failed to update inventory item", true⟩ }

/-- Configuration of `deleteItemMutation` in `Inventory.tsx`. -/
def deleteItemMutation : MutationDef :=
  { successInvalidates := ["inventory-items"]
    successToast := ⟨"Success", "Inventory item deleted successfully", false⟩
    errorToast := ⟨"Error", "Failed to delete inventory item", true⟩ }

/-! ## formatDateTime in the Activities card view -/

/-- The `formatDateTime` helper in `Activities.tsx`, abstracting over the JavaScript
`Date` parser (`parse`, string to epoch milliseconds) and the IST locale
formatter (`fmt`): the string gets a `'Z'` appended unless it already
contains one, is parsed, shifted by `5.5 * 60 * 60 * 1000` milliseconds, and
the shifted instant is locale-formatted. -/
def formatDateTime (parse : String → Int) (fmt : Int → String)
    (dateString : String) : String :=
  let utcDate : Int :=
    parse (dateString ++ (if dateString.toList.contains 'Z' then "" else "Z"))
  let istDate : Int := utcDate + (11 * 60 * 60 * 1000) / 2
  fmt istDate

/-- A nullable field matches the search term when it is non-null and matches
case-insensitively. -/
def FieldCiMatches (field : Option String) (term : String) : Prop :=
  ∃ s, field = some s ∧ CiMatches s term

/-! ## Concrete fixtures used by the witnesses -/

/-- The spec's example: the newest transaction for item A. -/
def txA2 : Transaction :=
  ⟨"A", 5, "t2", some ⟨"A", some "Cement", some "Material", some "bag"⟩⟩

/-- The spec's example: the only transaction for item B. -/
def txB2 : Transaction := ⟨"B", 9, "t2", none⟩

/-- The spec's example: the older transaction for item A. -/
def txA1 : Transaction :=
  ⟨"A", 3, "t1", some ⟨"A", some "Cement", some "Material", some "bag"⟩⟩

/-- The spec's example input, already sorted newest-first. -/
def txs0 : List Transaction := [txA2, txB2, txA1]

/-- A fixture inventory item whose name contains "cem" case-insensitively. -/
def itemCement : InventoryItem :=
  ⟨"1", some "Cement Bag", some "Material", some "bag", some "active"⟩

/-- A fixture inventory item matching no searched field for "cem". -/
def itemSteel : InventoryItem := ⟨"2", some "Steel Rod", none, some "pc", none⟩

/-- A fixture site used by the filter witness. -/
def siteAlpha : Site := ⟨"s1", some "Alpha Yard", some "Cemetery Road", none⟩

/-! ## Lemmas about first-seen order -/

theorem summaryOf_item_id (t : Transaction) : (summaryOf t).item_id = t.item_id := rfl

theorem firstSeenFrom_not_seen (l : List String) :
    ∀ seen d, d ∈ firstSeenFrom seen l → d ∉ seen := by
  induction l with
  | nil => intro seen d h; simp [firstSeenFrom] at h
  | cons x xs ih =>
    intro seen d h
    rw [firstSeenFrom] at h
    by_cases hx : x ∈ seen
    · rw [if_pos hx] at h
      exact ih seen d h
    · rw [if_neg hx] at h
      rcases List.mem_cons.mp h with h1 | h2
      · subst h1; exact hx
      · intro hd
        exact ih (x :: seen) d h2 (List.mem_cons_of_mem _ hd)

theorem firstSeenFrom_subset (l : List String) :
    ∀ seen d, d ∈ firstSeenFrom seen l → d ∈ l := by
  induction l with
  | nil => intro seen d h; simp [firstSeenFrom] at h
  | cons x xs ih =>
    intro seen d h
    rw [firstSeenFrom] at h
    by_cases hx : x ∈ seen
    · rw [if_pos hx] at h
      exact List.mem_cons_of_mem _ (ih seen d h)
    · rw [if_neg hx] at h
      rcases List.mem_cons.mp h with h1 | h2
      · exact h1 ▸ List.mem_cons_self _ _
      · exact List.mem_cons_of_mem _ (ih _ d h2)

theorem mem_firstSeenFrom (l : List String) :
    ∀ seen d, d ∈ l → d ∉ seen → d ∈ firstSeenFrom seen l := by
  induction l with
  | nil => intro seen d h; simp at h
  | cons x xs ih =>
    intro seen d hd hs
    rw [firstSeenFrom]
    by_cases hx : x ∈ seen
    · rw [if_pos hx]
      rcases List.mem_cons.mp hd with h1 | h2
      · exact absurd (h1 ▸ hx) hs
      · exact ih seen d h2 hs
    · rw [if_neg hx]
      by_cases hdx : d = x
      · exact hdx ▸ List.mem_cons_self _ _
      · rcases List.mem_cons.mp hd with h1 | h2
        · exact absurd h1 hdx
        · refine List.mem_cons_of_mem _ (ih (x :: seen) d h2 ?_)
          intro hmem
          rcases List.mem_cons.mp hmem with h3 | h4
          · exact hdx h3
          · exact hs h4

theorem firstSeenFrom_congr (l : List String) :
    ∀ s1 s2, (∀ a, a ∈ s1 ↔ a ∈ s2) →
      firstSeenFrom s1 l = firstSeenFrom s2 l := by
  induction l with
  | nil => intro s1 s2 _; rfl
  | cons x xs ih =>
    intro s1 s2 h
    rw [firstSeenFrom, firstSeenFrom]
    by_cases hx : x ∈ s1
    · rw [if_pos hx, if_pos ((h x).mp hx)]
      exact ih s1 s2 h
    · rw [if_neg hx, if_neg (fun hx2 => hx ((h x).mpr hx2))]
      refine congrArg (List.cons x) (ih (x :: s1) (x :: s2) ?_)
      intro a
      simp only [List.mem_cons]
      exact or_congr Iff.rfl (h a)

theorem firstSeenFrom_nodup (l : List String) :
    ∀ seen, (firstSeenFrom seen l).Nodup := by
  induction l with
  | nil => intro seen; simp [firstSeenFrom]
  | cons x xs ih =>
    intro seen
    rw [firstSeenFrom]
    by_cases hx : x ∈ seen
    · rw [if_pos hx]; exact ih seen
    · rw [if_neg hx]
      refine List.nodup_cons.mpr ⟨?_, ih (x :: seen)⟩
      intro hmem
      exact firstSeenFrom_not_seen xs (x :: seen) x hmem (List.mem_cons_self _ _)

theorem any_keyEq_iff (acc : List StockSummaryRow) (d : String) :
    acc.any (fun r => r.item_id = d) = true ↔ d ∈ keysOf acc := by
  simp only [keysOf, List.any_eq_true, List.mem_map, decide_eq_true_eq]

theorem keysOf_append_summary (acc : List StockSummaryRow) (t : Transaction) :
    keysOf (acc ++ [summaryOf t]) = keysOf acc ++ [t.item_id] := by
  simp [keysOf, summaryOf]

theorem stockScan_eq (txs : List Transaction) :
    ∀ acc, stockScan txs acc =
      acc ++ (firstSeenFrom (keysOf acc) (txs.map (fun t => t.item_id))).filterMap
        (fun d => (txs.find? (fun t => t.item_id = d)).map summaryOf) := by
  induction txs with
  | nil =>
    intro acc
    simp [stockScan, firstSeenFrom]
  | cons t ts ih =>
    intro acc
    rw [stockScan, List.map_cons]
    by_cases hmem : t.item_id ∈ keysOf acc
    · rw [if_pos ((any_keyEq_iff acc t.item_id).mpr hmem)]
      rw [ih acc, firstSeenFrom, if_pos hmem]
      congr 1
      apply List.filterMap_congr
      intro d hd
      have hdt : ¬t.item_id = d := by
        intro h
        exact firstSeenFrom_not_seen _ _ _ hd (h ▸ hmem)
      rw [List.find?_cons_of_neg _ (by simpa using hdt)]
    · rw [if_neg (fun h => hmem ((any_keyEq_iff acc t.item_id).mp h))]
      rw [ih (acc ++ [summaryOf t]), keysOf_append_summary]
      rw [firstSeenFrom, if_neg hmem, List.filterMap_cons]
      have hfind : (t :: ts).find? (fun u => u.item_id = t.item_id) = some t :=
        List.find?_cons_of_pos _ (by simp)
      rw [hfind]
      have hcongr :
          firstSeenFrom (keysOf acc ++ [t.item_id]) (ts.map (fun u => u.item_id)) =
            firstSeenFrom (t.item_id :: keysOf acc) (ts.map (fun u => u.item_id)) := by
        apply firstSeenFrom_congr
        intro a
        simp [or_comm]
      rw [hcongr]
      have hmaps :
          (firstSeenFrom (t.item_id :: keysOf acc) (ts.map (fun u => u.item_id))).filterMap
              (fun d => (ts.find? (fun u => u.item_id = d)).map summaryOf) =
            (firstSeenFrom (t.item_id :: keysOf acc) (ts.map (fun u => u.item_id))).filterMap
              (fun d => ((t :: ts).find? (fun u => u.item_id = d)).map summaryOf) := by
        apply List.filterMap_congr
        intro d hd
        have hdt : ¬t.item_id = d := by
          intro h
          exact firstSeenFrom_not_seen _ _ _ hd (h ▸ List.mem_cons_self _ _)
        rw [List.find?_cons_of_neg _ (by simpa using hdt)]
      rw [hmaps]
      simp [Option.map_some]

/-- The fallback scan computes exactly the computation the spec assigns to the
server procedure. -/
theorem stockSummaryFallback_eq_server (txs : List Transaction) :
    stockSummaryFallback txs = get_site_stock_summary txs := by
  rw [stockSummaryFallback, stockScan_eq]
  rfl

theorem keysOf_filterMap_find (txs : List Transaction) (l : List String)
    (hl : ∀ d ∈ l, d ∈ txs.map (fun t => t.item_id)) :
    keysOf (l.filterMap
      (fun d => (txs.find? (fun t => t.item_id = d)).map summaryOf)) = l := by
  induction l with
  | nil => rfl
  | cons x xs ih =>
    have hx := hl x (List.mem_cons_self _ _)
    have hsome : ∃ u, txs.find? (fun t => t.item_id = x) = some u := by
      rw [← Option.isSome_iff_exists, List.find?_isSome]
      obtain ⟨u, hu, hue⟩ := List.mem_map.mp hx
      exact ⟨u, hu, by simp [hue]⟩
    obtain ⟨u, hu⟩ := hsome
    have hux : u.item_id = x := by
      have := List.find?_some hu
      simpa using this
    rw [List.filterMap_cons, hu]
    simp only [Option.map_some']
    rw [keysOf, List.map_cons, ← keysOf]
    rw [ih (fun d hd => hl d (List.mem_cons_of_mem _ hd))]
    rw [summaryOf_item_id, hux]

theorem keysOf_stockSummaryFallback (txs : List Transaction) :
    keysOf (stockSummaryFallback txs) =
      firstSeenFrom [] (txs.map (fun t => t.item_id)) := by
  rw [stockSummaryFallback_eq_server, get_site_stock_summary]
  exact keysOf_filterMap_find txs _
    (fun d hd => firstSeenFrom_subset _ _ _ hd)

theorem stockScan_filter (txs : List Transaction) :
    ∀ acc d, (stockScan txs acc).filter (fun r => r.item_id = d) =
      acc.filter (fun r => r.item_id = d) ++
        (if acc.any (fun r => r.item_id = d) then []
         else ((txs.find? (fun t => t.item_id = d)).map summaryOf).toList) := by
  induction txs with
  | nil =>
    intro acc d
    by_cases h : acc.any (fun r => r.item_id = d) = true
    · simp [stockScan, h]
    · simp [stockScan, h]
  | cons t ts ih =>
    intro acc d
    rw [stockScan]
    by_cases hmem : acc.any (fun r => r.item_id = t.item_id) = true
    · rw [if_pos hmem, ih]
      by_cases hdt : d = t.item_id
      · subst hdt
        simp [hmem]
      · rw [List.find?_cons_of_neg _ (by simpa using fun h => hdt h.symm)]
    · rw [if_neg hmem, ih (acc ++ [summaryOf t]) d]
      rw [List.filter_append, List.any_append]
      have hmem' : acc.any (fun r => r.item_id = t.item_id) = false :=
        Bool.not_eq_true _ ▸ eq_false_of_ne_true hmem
      by_cases hdt : d = t.item_id
      · subst hdt
        rw [List.find?_cons_of_pos _ (by simp)]
        simp [summaryOf_item_id, hmem']
      · have hne : ¬t.item_id = d := fun h => hdt h.symm
        rw [List.find?_cons_of_neg _ (by simpa using hne)]
        have hfilter :
            [summaryOf t].filter (fun r => r.item_id = d) = [] := by
          simp [summaryOf_item_id, hne]
        have hany : [summaryOf t].any (fun r => r.item_id = d) = false := by
          simp [summaryOf_item_id, hne]
        rw [hfilter, hany, List.append_nil, Bool.or_false]

theorem idx_firstSeenFrom (l : List String) :
    ∀ seen A B, A ≠ B → A ∈ l → B ∈ l → A ∉ seen → B ∉ seen →
      (idxOfStr A (firstSeenFrom seen l) < idxOfStr B (firstSeenFrom seen l) ↔
        idxOfStr A l < idxOfStr B l) := by
  induction l with
  | nil => intro seen A B _ hA _ _ _; simp at hA
  | cons x xs ih =>
    intro seen A B hAB hA hB hAs hBs
    rw [firstSeenFrom]
    by_cases hx : x ∈ seen
    · rw [if_pos hx]
      have hxA : ¬x = A := fun h => hAs (h ▸ hx)
      have hxB : ¬x = B := fun h => hBs (h ▸ hx)
      have hA' : A ∈ xs := by
        rcases List.mem_cons.mp hA with h | h
        · exact absurd h.symm hxA
        · exact h
      have hB' : B ∈ xs := by
        rcases List.mem_cons.mp hB with h | h
        · exact absurd h.symm hxB
        · exact h
      rw [show idxOfStr A (x :: xs) = idxOfStr A xs + 1 by
        rw [idxOfStr, if_neg hxA]]
      rw [show idxOfStr B (x :: xs) = idxOfStr B xs + 1 by
        rw [idxOfStr, if_neg hxB]]
      rw [Nat.add_lt_add_iff_right]
      exact ih seen A B hAB hA' hB' hAs hBs
    · rw [if_neg hx]
      by_cases hxA : x = A
      · subst hxA
        have hxB : ¬x = B := hAB
        rw [show idxOfStr x (x :: firstSeenFrom (x :: seen) xs) = 0 by
          rw [idxOfStr, if_pos rfl]]
        rw [show idxOfStr B (x :: firstSeenFrom (x :: seen) xs) =
            idxOfStr B (firstSeenFrom (x :: seen) xs) + 1 by
          rw [idxOfStr, if_neg hxB]]
        rw [show idxOfStr x (x :: xs) = 0 by rw [idxOfStr, if_pos rfl]]
        rw [show idxOfStr B (x :: xs) = idxOfStr B xs + 1 by
          rw [idxOfStr, if_neg hxB]]
        simp
      · by_cases hxB : x = B
        · subst hxB
          rw [show idxOfStr A (x :: firstSeenFrom (x :: seen) xs) =
              idxOfStr A (firstSeenFrom (x :: seen) xs) + 1 by
            rw [idxOfStr, if_neg hxA]]
          rw [show idxOfStr x (x :: firstSeenFrom (x :: seen) xs) = 0 by
            rw [idxOfStr, if_pos rfl]]
          rw [show idxOfStr A (x :: xs) = idxOfStr A xs + 1 by
            rw [idxOfStr, if_neg hxA]]
          rw [show idxOfStr x (x :: xs) = 0 by rw [idxOfStr, if_pos rfl]]
          simp
        · have hA' : A ∈ xs := by
            rcases List.mem_cons.mp hA with h | h
            · exact absurd h.symm hxA
            · exact h
          have hB' : B ∈ xs := by
            rcases List.mem_cons.mp hB with h | h
            · exact absurd h.symm hxB
            · exact h
          have hAs' : A ∉ x :: seen := by
            intro h
            rcases List.mem_cons.mp h with h1 | h2
            · exact hxA h1.symm
            · exact hAs h2
          have hBs' : B ∉ x :: seen := by
            intro h
            rcases List.mem_cons.mp h with h1 | h2
            · exact hxB h1.symm
            · exact hBs h2
          rw [show idxOfStr A (x :: firstSeenFrom (x :: seen) xs) =
              idxOfStr A (firstSeenFrom (x :: seen) xs) + 1 by
            rw [idxOfStr, if_neg hxA]]
          rw [show idxOfStr B (x :: firstSeenFrom (x :: seen) xs) =
              idxOfStr B (firstSeenFrom (x :: seen) xs) + 1 by
            rw [idxOfStr, if_neg hxB]]
          rw [show idxOfStr A (x :: xs) = idxOfStr A xs + 1 by
            rw [idxOfStr, if_neg hxA]]
          rw [show idxOfStr B (x :: xs) = idxOfStr B xs + 1 by
            rw [idxOfStr, if_neg hxB]]
          rw [Nat.add_lt_add_iff_right, Nat.add_lt_add_iff_right]
          exact ih (x :: seen) A B hAB hA' hB' hAs' hBs'

theorem matchesOpt_eq_true_iff (f : Option String) (term : String) :
    matchesOpt f term = true ↔ FieldCiMatches f term := by
  cases f with
  | none => simp [matchesOpt, FieldCiMatches]
  | some s => simp [matchesOpt, FieldCiMatches, CiMatches, jsIncludes]

/-! ## Claim theorems -/

/-- C1: for every transaction list (sorted newest-first by the caller) the
fallback stock summary has exactly one entry per distinct `item_id` of the
input; that entry's `current_stock` is the `new_stock` of the first
transaction with that `item_id`, `last_updated` is that transaction's
`created_at`, and name/category/unit come from its joined
`inventory_items` record; the empty input yields the empty output. -/
theorem stockSummaryFallback_first_transaction (txs : List Transaction) :
    stockSummaryFallback [] = [] ∧
    (∀ r ∈ stockSummaryFallback txs,
      r.item_id ∈ txs.map (fun t => t.item_id)) ∧
    (∀ d ∈ txs.map (fun t => t.item_id),
      ∃ t, txs.find? (fun u => u.item_id = d) = some t ∧ t.item_id = d ∧
        (stockSummaryFallback txs).filter (fun r => r.item_id = d) =
          [summaryOf t] ∧
        (summaryOf t).current_stock = t.new_stock ∧
        (summaryOf t).last_updated = t.created_at ∧
        (summaryOf t).item_name = t.inventory_items.bind (fun i => i.name) ∧
        (summaryOf t).item_category =
          t.inventory_items.bind (fun i => i.category) ∧
        (summaryOf t).item_unit = t.inventory_items.bind (fun i => i.unit)) := by
  refine ⟨rfl, ?_, ?_⟩
  · intro r hr
    rw [stockSummaryFallback_eq_server, get_site_stock_summary] at hr
    obtain ⟨d, _, hfd⟩ := List.mem_filterMap.mp hr
    obtain ⟨t, hft, hrt⟩ := Option.map_eq_some'.mp hfd
    have ht := List.mem_of_find?_eq_some hft
    have hid : r.item_id = t.item_id := by
      rw [← hrt, summaryOf_item_id]
    exact List.mem_map.mpr ⟨t, ht, hid.symm⟩
  · intro d hd
    have hsome : ∃ t, txs.find? (fun u => u.item_id = d) = some t := by
      rw [← Option.isSome_iff_exists, List.find?_isSome]
      obtain ⟨u, hu, hue⟩ := List.mem_map.mp hd
      exact ⟨u, hu, by simp [hue]⟩
    obtain ⟨t, ht⟩ := hsome
    refine ⟨t, ht, by simpa using List.find?_some ht, ?_, rfl, rfl, rfl, rfl, rfl⟩
    rw [stockSummaryFallback, stockScan_filter txs [] d]
    simp [ht]

/-- Witness for C1 at the spec's example input `txs0`. -/
theorem stockSummaryFallback_first_transaction_witness :
    ((summaryOf txA2).item_id ∈ txs0.map (fun t => t.item_id)) ∧
    (∃ t, txs0.find? (fun u => u.item_id = "A") = some t ∧ t.item_id = "A" ∧
      (stockSummaryFallback txs0).filter (fun r => r.item_id = "A") =
        [summaryOf t] ∧
      (summaryOf t).current_stock = t.new_stock ∧
      (summaryOf t).last_updated = t.created_at ∧
      (summaryOf t).item_name = t.inventory_items.bind (fun i => i.name) ∧
      (summaryOf t).item_category =
        t.inventory_items.bind (fun i => i.category) ∧
      (summaryOf t).item_unit = t.inventory_items.bind (fun i => i.unit)) :=
  ⟨(stockSummaryFallback_first_transaction txs0).2.1 (summaryOf txA2)
      (by decide),
   (stockSummaryFallback_first_transaction txs0).2.2 "A" (by decide)⟩

/-- C3: the fallback summary enumerates items in first-seen order: A's entry
precedes B's entry exactly when the first transaction with A's id precedes
the first transaction with B's id in the input. -/
theorem stockSummaryFallback_first_seen_order (txs : List Transaction)
    (A B : String) (hA : A ∈ txs.map (fun t => t.item_id))
    (hB : B ∈ txs.map (fun t => t.item_id)) (hAB : A ≠ B) :
    (idxOfStr A (keysOf (stockSummaryFallback txs)) <
        idxOfStr B (keysOf (stockSummaryFallback txs)) ↔
      idxOfStr A (txs.map (fun t => t.item_id)) <
        idxOfStr B (txs.map (fun t => t.item_id))) := by
  rw [keysOf_stockSummaryFallback]
  exact idx_firstSeenFrom _ [] A B hAB hA hB (List.not_mem_nil A)
    (List.not_mem_nil B)

/-- Witness for C3 at the spec's example input `txs0`. -/
theorem stockSummaryFallback_first_seen_order_witness :
    ("A" ∈ txs0.map (fun t => t.item_id)) ∧
    ("B" ∈ txs0.map (fun t => t.item_id)) ∧
    ("A" : String) ≠ "B" ∧
    (idxOfStr "A" (keysOf (stockSummaryFallback txs0)) <
        idxOfStr "B" (keysOf (stockSummaryFallback txs0)) ↔
      idxOfStr "A" (txs0.map (fun t => t.item_id)) <
        idxOfStr "B" (txs0.map (fun t => t.item_id))) :=
  ⟨by decide, by decide, by decide,
   stockSummaryFallback_first_seen_order txs0 "A" "B" (by decide) (by decide)
     (by decide)⟩

/-- C9: the derivation is deterministic — equal inputs give identical output
lists (same entries, same values, same order). -/
theorem stockSummaryFallback_deterministic (t1 t2 : List Transaction)
    (h : t1 = t2) : stockSummaryFallback t1 = stockSummaryFallback t2 := by
  rw [h]

/-- Witness for C9 at the spec's example input `txs0`. -/
theorem stockSummaryFallback_deterministic_witness :
    txs0 = txs0 ∧ stockSummaryFallback txs0 = stockSummaryFallback txs0 :=
  ⟨rfl, stockSummaryFallback_deterministic txs0 txs0 rfl⟩

/-- C2: with a site selected, the query returns the server procedure's rows
unchanged on success (a null payload becomes `[]`); the client-side scan runs
only when the `rpc` call errors, a failed fallback fetch rethrows, and the
fallback computes exactly what the spec assigns to the server procedure. -/
theorem siteStockSummary_rpc_first (site : String) (e te : StoreError)
    (data : Option (List StockSummaryRow))
    (txr : Except StoreError (Option (List Transaction)))
    (txs : Option (List Transaction)) (hsite : ¬site = "") :
    siteStockSummaryQueryFn site (.ok data) txr = .ok (data.getD []) ∧
    siteStockSummaryQueryFn site (.error e) (.ok txs) =
      .ok (stockSummaryFallback (txs.getD [])) ∧
    siteStockSummaryQueryFn site (.error e) (.error te) = .error te ∧
    (∀ l : List Transaction,
      stockSummaryFallback l = get_site_stock_summary l) := by
  refine ⟨?_, ?_, ?_, stockSummaryFallback_eq_server⟩ <;>
    simp [siteStockSummaryQueryFn, hsite]

/-- Witness for C2 at concrete inputs. -/
theorem siteStockSummary_rpc_first_witness :
    (¬("site-1" : String) = "") ∧
    (siteStockSummaryQueryFn "site-1" (.ok none) (.error ⟨"offline"⟩) =
        .ok ((none : Option (List StockSummaryRow)).getD []) ∧
      siteStockSummaryQueryFn "site-1" (.error ⟨"missing-rpc"⟩)
          (.ok (some txs0)) =
        .ok (stockSummaryFallback ((some txs0).getD [])) ∧
      siteStockSummaryQueryFn "site-1" (.error ⟨"missing-rpc"⟩)
          (.error ⟨"offline"⟩) =
        .error ⟨"offline"⟩ ∧
      (∀ l : List Transaction,
        stockSummaryFallback l = get_site_stock_summary l)) :=
  ⟨by decide,
   siteStockSummary_rpc_first "site-1" ⟨"missing-rpc"⟩ ⟨"offline"⟩ none
     (.error ⟨"offline"⟩) (some txs0) (by decide)⟩

/-- C4: the page filters are sound and complete for case-insensitive
substring match — every kept row matches the term in a searched field, every
dropped row matches in none (inventory items: name/category; sites:
name/location). -/
theorem pageFilter_sound_complete (items : List InventoryItem)
    (sites : List Site) (term : String) :
    (∀ it ∈ filteredItems items term,
      it ∈ items ∧
        (FieldCiMatches it.name term ∨ FieldCiMatches it.category term)) ∧
    (∀ it ∈ items, it ∉ filteredItems items term →
      ¬FieldCiMatches it.name term ∧ ¬FieldCiMatches it.category term) ∧
    (∀ st ∈ filteredSites sites term,
      st ∈ sites ∧
        (FieldCiMatches st.name term ∨ FieldCiMatches st.location term)) ∧
    (∀ st ∈ sites, st ∉ filteredSites sites term →
      ¬FieldCiMatches st.name term ∧ ¬FieldCiMatches st.location term) := by
  refine ⟨?_, ?_, ?_, ?_⟩
  · intro it hit
    simp only [filteredItems] at hit
    obtain ⟨hmem, hp⟩ := List.mem_filter.mp hit
    rw [Bool.or_eq_true] at hp
    refine ⟨hmem, ?_⟩
    rcases hp with hp | hp
    · exact Or.inl ((matchesOpt_eq_true_iff _ _).mp hp)
    · exact Or.inr ((matchesOpt_eq_true_iff _ _).mp hp)
  · intro it hmem hnot
    constructor
    · intro hm
      refine hnot ?_
      simp only [filteredItems]
      exact List.mem_filter.mpr ⟨hmem, by
        rw [Bool.or_eq_true]
        exact Or.inl ((matchesOpt_eq_true_iff _ _).mpr hm)⟩
    · intro hm
      refine hnot ?_
      simp only [filteredItems]
      exact List.mem_filter.mpr ⟨hmem, by
        rw [Bool.or_eq_true]
        exact Or.inr ((matchesOpt_eq_true_iff _ _).mpr hm)⟩
  · intro st hst
    simp only [filteredSites] at hst
    obtain ⟨hmem, hp⟩ := List.mem_filter.mp hst
    rw [Bool.or_eq_true] at hp
    refine ⟨hmem, ?_⟩
    rcases hp with hp | hp
    · exact Or.inl ((matchesOpt_eq_true_iff _ _).mp hp)
    · exact Or.inr ((matchesOpt_eq_true_iff _ _).mp hp)
  · intro st hmem hnot
    constructor
    · intro hm
      refine hnot ?_
      simp only [filteredSites]
      exact List.mem_filter.mpr ⟨hmem, by
        rw [Bool.or_eq_true]
        exact Or.inl ((matchesOpt_eq_true_iff _ _).mpr hm)⟩
    · intro hm
      refine hnot ?_
      simp only [filteredSites]
      exact List.mem_filter.mpr ⟨hmem, by
        rw [Bool.or_eq_true]
        exact Or.inr ((matchesOpt_eq_true_iff _ _).mpr hm)⟩

/-- Witness for C4: the term "cem" keeps the cement item and the Cemetery
Road site and drops the steel item. -/
theorem pageFilter_sound_complete_witness :
    (itemCement ∈ filteredItems [itemCement, itemSteel] "cem" →
      itemCement ∈ [itemCement, itemSteel] ∧
        (FieldCiMatches itemCement.name "cem" ∨
          FieldCiMatches itemCement.category "cem")) ∧
    (itemCement ∈ filteredItems [itemCement, itemSteel] "cem") ∧
    (itemSteel ∈ [itemCement, itemSteel]) ∧
    (itemSteel ∉ filteredItems [itemCement, itemSteel] "cem") ∧
    (¬FieldCiMatches itemSteel.name "cem" ∧
      ¬FieldCiMatches itemSteel.category "cem") ∧
    (siteAlpha ∈ filteredSites [siteAlpha] "cem") ∧
    (siteAlpha ∈ [siteAlpha] ∧
      (FieldCiMatches siteAlpha.name "cem" ∨
        FieldCiMatches siteAlpha.location "cem")) :=
  ⟨fun h =>
      (pageFilter_sound_complete [itemCement, itemSteel] [siteAlpha] "cem").1
        itemCement h,
   by decide, by decide, by decide,
   (pageFilter_sound_complete [itemCement, itemSteel] [siteAlpha] "cem").2.1
     itemSteel (by decide) (by decide),
   by decide,
   (pageFilter_sound_complete [itemCement, itemSteel] [siteAlpha] "cem").2.2.1
     siteAlpha (by decide)⟩

/-- C5: with auth loaded and no user, `ProtectedApp` renders the sign-in view
(and no routed page) for every path; with a user it maps exactly the nine
listed paths to their pages and every other path to the not-found page. -/
theorem protectedApp_auth_and_routes (path : String) (u : String) :
    ProtectedApp false none path = View.authView ∧
    (∀ p : Page, ProtectedApp false none path ≠ View.page p) ∧
    ProtectedApp false (some u) "/" = View.page Page.dashboard ∧
    ProtectedApp false (some u) "/users" = View.page Page.users ∧
    ProtectedApp false (some u) "/sites" = View.page Page.sites ∧
    ProtectedApp false (some u) "/activities" = View.page Page.activities ∧
    ProtectedApp false (some u) "/material-requests" =
      View.page Page.materialRequests ∧
    ProtectedApp false (some u) "/bookings" = View.page Page.bookings ∧
    ProtectedApp false (some u) "/message-logs" =
      View.page Page.messageLogs ∧
    ProtectedApp false (some u) "/sessions" = View.page Page.sessions ∧
    ProtectedApp false (some u) "/employee-otps" =
      View.page Page.employeeOTPs ∧
    (path ∉ routedPaths →
      ProtectedApp false (some u) path = View.page Page.notFound) := by
  refine ⟨rfl, ?_, rfl, rfl, rfl, rfl, rfl, rfl, rfl, rfl, rfl, ?_⟩
  · intro p h
    exact View.noConfusion (show View.authView = View.page p from h)
  · intro hpath
    simp only [routedPaths, List.mem_cons, List.mem_singleton, not_or]
      at hpath
    obtain ⟨h1, h2, h3, h4, h5, h6, h7, h8, h9⟩ := hpath
    simp [ProtectedApp, routeFor, h1, h2, h3, h4, h5, h6, h7, h8, h9]

/-- Witness for C5: the routed path "/users" shows the sign-in view while
unauthenticated, and the unrouted path "/nope" falls through to not-found
for an authenticated user. -/
theorem protectedApp_auth_and_routes_witness :
    ProtectedApp false none "/users" = View.authView ∧
    (∀ p : Page, ProtectedApp false none "/users" ≠ View.page p) ∧
    (("/nope" : String) ∉ routedPaths) ∧
    ProtectedApp false (some "admin") "/nope" = View.page Page.notFound := by
  refine ⟨(protectedApp_auth_and_routes "/users" "admin").1,
    (protectedApp_auth_and_routes "/users" "admin").2.1, by decide, ?_⟩
  have h := protectedApp_auth_and_routes "/nope" "admin"
  exact h.2.2.2.2.2.2.2.2.2.2.2 (by decide)

/-- C6: submitting the sign-in form with an empty email raises only an error
toast, makes no network call (`signInWithOtp` is never invoked, whatever it
would have returned), and stays on the email step. -/
theorem handleEmailSubmit_empty_rejected (r : Option AuthError) :
    handleEmailSubmit "" r =
      { toasts := [⟨"Error", "Please enter your email address", true⟩]
        networkCall := false
        step := AuthStep.email } := rfl

/-- C7: when `verifyOtp` returns an error, the handler raises only an error
toast, does not navigate to `/`, and leaves the session exactly as before —
in particular an unauthenticated session stays unauthenticated. -/
theorem handleOtpSubmit_error_unauthenticated (otp : String) (err : AuthError)
    (prev : Option Session) (hotp : ¬otp = "") :
    handleOtpSubmit otp (.error err) prev =
      { toasts :=
          [⟨"Error", jsOrElse err.message "Invalid verification code", true⟩]
        navigatedHome := false
        session := prev } := by
  rw [handleOtpSubmit, if_neg hotp]

/-- Witness for C7 with a six-digit code and no prior session. -/
theorem handleOtpSubmit_error_unauthenticated_witness :
    (¬("123456" : String) = "") ∧
    handleOtpSubmit "123456" (.error ⟨none⟩) none =
      { toasts := [⟨"Error", "Invalid verification code", true⟩]
        navigatedHome := false
        session := none } :=
  ⟨by decide,
   handleOtpSubmit_error_unauthenticated "123456" ⟨none⟩ none (by decide)⟩

/-- C8: for each of the three inventory-item mutations, a failed write only
raises the destructive error toast — no query key is invalidated, the
attempt is not retried, and the app does not crash; invalidation and the
success toast happen only on the success path. -/
theorem mutationError_no_invalidation (m : MutationDef) (e : StoreError)
    (hm : m ∈ [createItemMutation, updateItemMutation, deleteItemMutation]) :
    runMutation m (.error e) =
      { invalidatedKeys := []
        toasts := [m.errorToast]
        attempts := 1
        crashed := false } ∧
    m.errorToast.destructive = true ∧
    runMutation m (.ok ()) =
      { invalidatedKeys := m.successInvalidates
        toasts := [m.successToast]
        attempts := 1
        crashed := false } := by
  refine ⟨rfl, ?_, rfl⟩
  simp only [List.mem_cons, List.mem_singleton, List.not_mem_nil, or_false]
    at hm
  rcases hm with rfl | rfl | rfl <;> rfl

/-- Witness for C8 at the create mutation. -/
theorem mutationError_no_invalidation_witness :
    (createItemMutation ∈
      [createItemMutation, updateItemMutation, deleteItemMutation]) ∧
    (runMutation createItemMutation (.error ⟨"permission-denied"⟩) =
        { invalidatedKeys := []
          toasts := [createItemMutation.errorToast]
          attempts := 1
          crashed := false } ∧
      createItemMutation.errorToast.destructive = true ∧
      runMutation createItemMutation (.ok ()) =
        { invalidatedKeys := createItemMutation.successInvalidates
          toasts := [createItemMutation.successToast]
          attempts := 1
          crashed := false }) :=
  ⟨by decide,
   mutationError_no_invalidation createItemMutation ⟨"permission-denied"⟩
     (by decide)⟩

/-- C10: `formatDateTime` appends `'Z'` exactly when the string contains
none, and adds exactly `5.5 * 60 * 60 * 1000 = 19800000` milliseconds to the
parsed instant before handing it to the locale formatter: the IST offset is
applied by shifting the instant itself. -/
theorem formatDateTime_shifts_instant (parse : String → Int)
    (fmt : Int → String) (s : String) :
    ((11 * 60 * 60 * 1000 : Int) / 2 = 19800000) ∧
    (s.toList.contains 'Z' = false →
      formatDateTime parse fmt s = fmt (parse (s ++ "Z") + 19800000)) ∧
    (s.toList.contains 'Z' = true →
      formatDateTime parse fmt s = fmt (parse s + 19800000)) := by
  refine ⟨by norm_num, ?_, ?_⟩
  · intro h
    rw [formatDateTime]
    rw [h]
    norm_num
  · intro h
    rw [formatDateTime]
    rw [h]
    norm_num

/-- Witness for C10 at a store timestamp without a `'Z'`. -/
theorem formatDateTime_shifts_instant_witness :
    ("2024-01-01T00:00:00".toList.contains 'Z' = false) ∧
    formatDateTime (fun _ => (7 : Int)) (fun i => toString i)
        "2024-01-01T00:00:00" =
      (fun i => toString i)
        ((fun _ => (7 : Int)) ("2024-01-01T00:00:00" ++ "Z") + 19800000) :=
  ⟨by decide,
   (formatDateTime_shifts_instant (fun _ => (7 : Int)) (fun i => toString i)
       "2024-01-01T00:00:00").2.1 (by decide)⟩
